import Mathlib

/-!
Verification of the MPLCompiler row-reconciliation pipeline.

Shallow embedding of the upload endpoint's pure kernel (the helpers
`cleanDescription`, `toInt`, `chooseFinalPair` and the `finalRows`
map/filter pipeline of the POST handler), of the upload-guard sequence of
the same handler, of the label page's Code 39 SVG renderer
(`sanitizeData`, `buildRuns`, the module-width computation of
`renderIntoHost`), and of the legacy label page's `fitOne` auto-fit step.

JavaScript strings are `String`, JavaScript numbers that occur in the
claims are integers (`Int`), fractional pixel arithmetic is `ℚ`.
-/

namespace MPLC

/-- Approximation of the JavaScript whitespace class (ASCII whitespace
plus NBSP); used for `\s`, `String.prototype.trim` and `parseInt`'s
leading-whitespace skip. -/
def jsWS (c : Char) : Bool :=
  c == ' ' || c == '\t' || c == '\n' || c == '\r' || c == '\x0b' || c == '\x0c' || c == '\u00A0'

/-- JavaScript `trim` on a character list: drop whitespace from both ends. -/
def jsTrimList (l : List Char) : List Char :=
  ((l.dropWhile jsWS).reverse.dropWhile jsWS).reverse

/-- A JavaScript value occupying one of the numeric candidate fields:
`null`, `undefined`, an (integer) number, or a string. -/
inductive JSVal where
  | null
  | undef
  | num (n : Int)
  | str (s : String)
deriving DecidableEq, Repr

/-- JavaScript `String(v)` for the values of `JSVal`. -/
def jsStringOf : JSVal → String
  | .null => "null"
  | .undef => "undefined"
  | .num n => toString n
  | .str s => s

/-- The `replace(/[, ]/g, '')` step of `toInt`: remove every comma and
every plain space. -/
def stripCommaSpace (s : String) : String :=
  ⟨s.toList.filter (fun c => !(c == ',' || c == ' '))⟩

/-- Value of a run of decimal digits. -/
def digitsToNat (l : List Char) : Nat :=
  l.foldl (fun a c => 10 * a + (c.toNat - 48)) 0

/-- JavaScript `parseInt(s, 10)`: skip leading whitespace, read an
optional sign, then the longest run of decimal digits; `none` models the
`NaN` outcome (no digits found). -/
def jsParseInt (s : String) : Option Int :=
  let l := s.toList.dropWhile jsWS
  let signAndRest : Bool × List Char :=
    match l with
    | '-' :: t => (true, t)
    | '+' :: t => (false, t)
    | _ => (false, l)
  let ds := signAndRest.2.takeWhile Char.isDigit
  if ds.isEmpty then none
  else some (if signAndRest.1 then -(digitsToNat ds : Int) else (digitsToNat ds : Int))

/-- Embedding of the endpoint helper `toInt`: `null`/`undefined` coerce
to 0, otherwise commas and spaces are removed from the string form and
the result is parsed with `parseInt(·, 10)`; a `NaN` parse yields 0
(the `Number.isFinite` check). -/
def toInt : JSVal → Int
  | .null => 0
  | .undef => 0
  | .num n => (jsParseInt (stripCommaSpace (jsStringOf (.num n)))).getD 0
  | .str s => (jsParseInt (stripCommaSpace (jsStringOf (.str s)))).getD 0

/-- ASCII letter or digit, the class `[A-Za-z0-9]` of the lookahead in
`cleanDescription`. -/
def isAlnumAscii (c : Char) : Bool :=
  c.isAlpha || c.isDigit

/-- The `replace(/\s{2,}/g, ' ')` step: every maximal run of two or more
whitespace characters becomes a single space; lone whitespace characters
are kept as they are.  `flushWSRun` closes the pending run collected
while folding from the right. -/
def flushWSRun (pend res : List Char) : List Char :=
  if 2 ≤ pend.length then ' ' :: res else pend ++ res

/-- Collapse internal whitespace runs, folding from the right and
tracking the current whitespace run. -/
def collapseWS (l : List Char) : List Char :=
  let p := l.foldr
    (fun c acc =>
      if jsWS c then (acc.1, c :: acc.2)
      else (c :: flushWSRun acc.2 acc.1, []))
    (([] : List Char), ([] : List Char))
  flushWSRun p.2 p.1

/-- The `replace(/^[A-Z]{1,3}\s+(?=[A-Za-z0-9])/u, '')` step of
`cleanDescription`.  The regex matches exactly when the maximal leading
run of `A`-`Z` has length 1 to 3, is followed by at least one whitespace
character, and the first character after the whole whitespace run is an
ASCII letter or digit (the lookahead); the matched letters and
whitespace are removed. -/
def dropSupplierCode (l : List Char) : List Char :=
  let ups := l.takeWhile Char.isUpper
  let afterUps := l.dropWhile Char.isUpper
  let ws := afterUps.takeWhile jsWS
  let rest := afterUps.dropWhile jsWS
  if 1 ≤ ups.length && ups.length ≤ 3 && 1 ≤ ws.length &&
      (match rest.head? with
       | some c => isAlnumAscii c
       | none => false)
  then rest
  else l

/-- Embedding of the endpoint helper `cleanDescription` on a string
input: strip the supplier code, then `trim()`, then collapse whitespace
runs (the source applies exactly this order). -/
def cleanDescription (s : String) : String :=
  ⟨collapseWS (jsTrimList (dropSupplierCode s.toList))⟩

/-- The full `cleanDescription` including its guard: `null`, `undefined`
and non-string inputs (modelled by `none`) and the empty string (falsy)
return the empty string. -/
def cleanDescriptionField : Option String → String
  | none => ""
  | some s => if s = "" then "" else cleanDescription s

/-- One candidate row as produced by the extraction provider and parsed
from the response JSON; field names follow the endpoint's schema.
`article`, `description` and the two header-label fields may be absent
(`none` models `null`/`undefined`). -/
structure CandidateRow where
  article : Option String
  description : Option String
  mpl : JSVal
  soh : JSVal
  mpl_header : Option String
  soh_header : Option String
  tail_soh : JSVal
  tail_mpl : JSVal
  tail_capacity : JSVal
  raw_row : String
deriving DecidableEq, Repr

/-- The `(row.x_header || '').toString().trim().toUpperCase()`
normalization of a header-label field. -/
def headerNorm (h : Option String) : String :=
  ⟨(jsTrimList (h.getD "").toList).map Char.toUpper⟩

/-- The authoritative pair chosen by the reconciler. -/
structure FinalPair where
  mpl : Int
  soh : Int
deriving DecidableEq, Repr

/-- Embedding of `chooseFinalPair`: use the header-sourced pair when the
header labels are exactly `MPL`/`SOH`, no swap heuristic fires, and the
zero-header guard does not fire; otherwise fall back to the positional
(tail) pair. -/
def chooseFinalPair (row : CandidateRow) : FinalPair :=
  let mh := headerNorm row.mpl_header
  let sh := headerNorm row.soh_header
  let headerLooksRight : Bool := mh == "MPL" && sh == "SOH"
  let h_mpl := toInt row.mpl
  let h_soh := toInt row.soh
  let t_mpl := toInt row.tail_mpl
  let t_soh := toInt row.tail_soh
  let t_cap := toInt row.tail_capacity
  let headerLooksSwapped : Bool :=
    (h_mpl == t_cap && t_mpl != t_cap) || (h_mpl == t_soh && h_soh == t_mpl)
  let headerUsable : Bool :=
    headerLooksRight && !headerLooksSwapped && !(h_mpl == 0 && decide (0 < t_mpl))
  if headerUsable then { mpl := h_mpl, soh := h_soh } else { mpl := t_mpl, soh := t_soh }

/-- A row of the endpoint's final output. -/
structure ResultRow where
  article : String
  description : String
  mpl : Int
  soh : Int
deriving DecidableEq, Repr

/-- The `String(r.article ?? '').trim()` step of the row mapping. -/
def articleString (a : Option String) : String :=
  ⟨jsTrimList (a.getD "").toList⟩

/-- The map step of the POST handler's `finalRows` pipeline: one
candidate row becomes one result row via `chooseFinalPair` and the text
cleanups. -/
def mapRow (r : CandidateRow) : ResultRow :=
  let p := chooseFinalPair r
  { article := articleString r.article
    description := cleanDescriptionField r.description
    mpl := p.mpl
    soh := p.soh }

/-- The filter step `r.article && r.soh <= r.mpl` of the pipeline: a
result row is kept when its (already trimmed) article is truthy, i.e.
non-empty, and `soh ≤ mpl`. -/
def keepRow (r : ResultRow) : Bool :=
  r.article != "" && decide (r.soh ≤ r.mpl)

/-- The endpoint's final row set: map every candidate row, then filter. -/
def finalRows (rows : List CandidateRow) : List ResultRow :=
  (rows.map mapRow).filter keepRow

/-- Claim C1: every row of the upload endpoint's final ResultRow set
(map through `chooseFinalPair`/`cleanDescription`, then filter)
satisfies `soh ≤ mpl` and has a non-empty article string. -/
theorem c1_finalRows_invariant (rows : List CandidateRow) (r : ResultRow)
    (h : r ∈ finalRows rows) : r.soh ≤ r.mpl ∧ r.article ≠ "" := by
  unfold finalRows at h
  have hk : keepRow r = true := (List.mem_filter.mp h).2
  simp only [keepRow, Bool.and_eq_true, bne_iff_ne, decide_eq_true_eq] at hk
  exact ⟨hk.2, hk.1⟩

/-- Witness for C1 at a concrete upload: the surviving row of a
one-candidate upload satisfies the invariant. -/
theorem c1_witness :
    (ResultRow.mk "12345" "Widget" 10 4).soh ≤ (ResultRow.mk "12345" "Widget" 10 4).mpl ∧
    (ResultRow.mk "12345" "Widget" 10 4).article ≠ "" :=
  c1_finalRows_invariant
    [⟨some "12345", some "PI Widget", .num 10, .num 4, some "MPL", some "SOH",
      .num 4, .num 10, .num 20, "12345 PI Widget 4 10 20"⟩]
    (ResultRow.mk "12345" "Widget" 10 4) (by decide)

/-- Claim C2: when the coerced `header_mpl` equals `tail_capacity` while
`tail_mpl` differs from `tail_capacity`, `chooseFinalPair` returns the
positional pair `(mpl = tail_mpl, soh = tail_soh)`. -/
theorem c2_swap_forces_tail (r : CandidateRow)
    (h1 : toInt r.mpl = toInt r.tail_capacity)
    (h2 : toInt r.tail_mpl ≠ toInt r.tail_capacity) :
    chooseFinalPair r = { mpl := toInt r.tail_mpl, soh := toInt r.tail_soh } := by
  simp [chooseFinalPair, h1, h2]

/-- Witness for C2: a concrete row whose header MPL accidentally equals
the capacity column is resolved to the tail pair. -/
theorem c2_witness :
    chooseFinalPair ⟨some "12345", some "PI Widget", .num 20, .num 10, some "MPL",
      some "SOH", .num 4, .num 10, .num 20, "x"⟩ = { mpl := 10, soh := 4 } :=
  c2_swap_forces_tail _ (by decide) (by decide)

/-- Claim C3: when the coerced `header_mpl` is 0 while the coerced
`tail_mpl` is strictly positive, `chooseFinalPair` returns the
positional pair. -/
theorem c3_zero_header_forces_tail (r : CandidateRow)
    (h1 : toInt r.mpl = 0)
    (h2 : 0 < toInt r.tail_mpl) :
    chooseFinalPair r = { mpl := toInt r.tail_mpl, soh := toInt r.tail_soh } := by
  simp [chooseFinalPair, h1, h2]

/-- Witness for C3: a concrete row with a spuriously zero header MPL and
positive tail MPL resolves to the tail pair. -/
theorem c3_witness :
    chooseFinalPair ⟨some "99", some "Thing", .num 0, .num 2, some "MPL",
      some "SOH", .num 3, .num 7, .num 9, "x"⟩ = { mpl := 7, soh := 3 } :=
  c3_zero_header_forces_tail _ (by decide) (by decide)

/-- Claim C5: the filter boundary is inclusive: a mapped row with a
non-empty (trimmed) article and `soh = mpl` is kept, a mapped row with
`soh = mpl + 1` is dropped, and a row whose article trims to the empty
string yields an empty output set. -/
theorem c5_filter_boundary (c : CandidateRow) :
    ((mapRow c).article ≠ "" → (mapRow c).soh = (mapRow c).mpl →
        mapRow c ∈ finalRows [c]) ∧
    ((mapRow c).soh = (mapRow c).mpl + 1 → mapRow c ∉ finalRows [c]) ∧
    ((mapRow c).article = "" → finalRows [c] = []) := by
  refine ⟨fun ha he => ?_, fun he => ?_, fun ha => ?_⟩
  · have ha2 : ((mapRow c).article != "") = true := by
      simpa [bne_iff_ne] using ha
    simp [finalRows, List.filter, keepRow, ha2, he]
  · have hnot : ¬ ((mapRow c).soh ≤ (mapRow c).mpl) := by omega
    simp [finalRows, List.filter, keepRow, hnot]
  · simp [finalRows, List.filter, keepRow, ha]

/-- Witness for C5 at concrete rows: boundary row kept, boundary-plus-one
row dropped, blank-article row dropped. -/
theorem c5_witness :
    (mapRow ⟨some "A1", some "Item", .num 5, .num 5, some "MPL", some "SOH",
        .num 5, .num 5, .num 9, "x"⟩ ∈
      finalRows [⟨some "A1", some "Item", .num 5, .num 5, some "MPL", some "SOH",
        .num 5, .num 5, .num 9, "x"⟩]) ∧
    (mapRow ⟨some "B2", some "Item", .num 5, .num 6, some "MPL", some "SOH",
        .num 6, .num 5, .num 9, "x"⟩ ∉
      finalRows [⟨some "B2", some "Item", .num 5, .num 6, some "MPL", some "SOH",
        .num 6, .num 5, .num 9, "x"⟩]) ∧
    finalRows [⟨some "   ", some "Item", .num 5, .num 5, some "MPL", some "SOH",
        .num 5, .num 5, .num 9, "x"⟩] = [] :=
  ⟨(c5_filter_boundary _).1 (by decide) (by decide),
   (c5_filter_boundary _).2.1 (by decide),
   (c5_filter_boundary _).2.2 (by decide)⟩

/-- Claim C4 as stated is refuted at the input string "-5": `toInt`
returns the negative integer -5, not a non-negative integer. -/
theorem c4_counterexample :
    toInt (JSVal.str "-5") = -5 ∧ toInt (JSVal.str "-5") < 0 := by
  constructor <;> decide

/-- Claim C4, amended: `toInt` maps every input to an integer (never
null/undefined): commas and spaces are removed before parsing (so
"1,234" yields 1234) and blank, missing or otherwise unparseable input
yields 0; the result can be negative for inputs with a leading minus
sign. -/
theorem c4_toInt_amended :
    toInt .null = 0 ∧ toInt .undef = 0 ∧ toInt (.str "") = 0 ∧
    toInt (.str "1,234") = 1234 ∧
    (∀ s : String, jsParseInt (stripCommaSpace s) = none → toInt (.str s) = 0) ∧
    (∀ s : String, toInt (.str s) = toInt (.str (stripCommaSpace s))) := by
  refine ⟨by decide, by decide, by decide, by decide, fun s h => ?_, fun s => ?_⟩
  · simp [toInt, jsStringOf, h]
  · have hidem : stripCommaSpace (stripCommaSpace s) = stripCommaSpace s := by
      simp [stripCommaSpace, List.filter_filter]
    simp [toInt, jsStringOf, hidem]

/-- Witness for the amended C4: a concrete unparseable input coerces to
0, and pre-stripping separators does not change the result. -/
theorem c4_witness :
    toInt (.str "abc") = 0 ∧ toInt (.str "1 2,3") = toInt (.str "123") := by
  constructor
  · exact c4_toInt_amended.2.2.2.2.1 "abc" (by decide)
  · have h := c4_toInt_amended.2.2.2.2.2 "1 2,3"
    rwa [show stripCommaSpace "1 2,3" = "123" by decide] at h

/-- Helper: `takeWhile` consumes exactly a leading block on which the
predicate holds, when the first character after the block fails it. -/
theorem takeWhile_append_all (p : Char → Bool) (l₁ l₂ : List Char)
    (h₁ : ∀ c ∈ l₁, p c = true)
    (h₂ : ∀ c, l₂.head? = some c → p c = false) :
    (l₁ ++ l₂).takeWhile p = l₁ := by
  induction l₁ with
  | nil =>
    simp only [List.nil_append]
    cases l₂ with
    | nil => rfl
    | cons a t => simp [List.takeWhile_cons, h₂ a rfl]
  | cons a t ih =>
    have ha := h₁ a (by simp)
    simp [List.takeWhile_cons, ha, ih (fun c hc => h₁ c (by simp [hc]))]

/-- Helper: `dropWhile` drops exactly a leading block on which the
predicate holds, when the first character after the block fails it. -/
theorem dropWhile_append_all (p : Char → Bool) (l₁ l₂ : List Char)
    (h₁ : ∀ c ∈ l₁, p c = true)
    (h₂ : ∀ c, l₂.head? = some c → p c = false) :
    (l₁ ++ l₂).dropWhile p = l₂ := by
  induction l₁ with
  | nil =>
    simp only [List.nil_append]
    cases l₂ with
    | nil => rfl
    | cons a t => simp [List.dropWhile_cons, h₂ a rfl]
  | cons a t ih =>
    have ha := h₁ a (by simp)
    simp [List.dropWhile_cons, ha, ih (fun c hc => h₁ c (by simp [hc]))]

/-- Helper: JavaScript whitespace characters are not uppercase letters. -/
theorem jsWS_not_upper (c : Char) (h : jsWS c = true) : c.isUpper = false := by
  simp only [jsWS, Bool.or_eq_true, beq_iff_eq] at h
  rcases h with (((((h | h) | h) | h) | h) | h) | h <;> subst h <;> decide

/-- Helper: ASCII alphanumeric characters are not JavaScript whitespace. -/
theorem isAlnum_not_jsWS (c : Char) (h : isAlnumAscii c = true) : jsWS c = false := by
  cases hw : jsWS c with
  | false => rfl
  | true =>
    exfalso
    simp only [jsWS, Bool.or_eq_true, beq_iff_eq] at hw
    rcases hw with (((((h2 | h2) | h2) | h2) | h2) | h2) | h2 <;> subst h2 <;>
      exact absurd h (by decide)

/-- The text cleanup exactly as the claim words it ("strip a leading run
of 1-3 uppercase letters followed by whitespace ... collapse internal
runs of 2 or more whitespace to a single space, and trim"), without the
lookahead condition the source regex carries.  Stated only to compare
with `cleanDescription`. -/
def specCleanDescription (s : String) : String :=
  let l := s.toList
  let ups := l.takeWhile Char.isUpper
  let afterUps := l.dropWhile Char.isUpper
  let ws := afterUps.takeWhile jsWS
  let rest := afterUps.dropWhile jsWS
  let stripped := if 1 ≤ ups.length && ups.length ≤ 3 && 1 ≤ ws.length then rest else l
  ⟨jsTrimList (collapseWS stripped)⟩

/-- Claim C6 as stated is refuted at "PI %x": the claimed rule strips
the prefix unconditionally ("%x"), but the source regex only strips when
an ASCII letter or digit follows the whitespace, so `cleanDescription`
leaves the string unchanged. -/
theorem c6_counterexample :
    specCleanDescription "PI %x" = "%x" ∧ cleanDescription "PI %x" = "PI %x" ∧
    ("%x" : String) ≠ "PI %x" := by
  refine ⟨by decide, by decide, by decide⟩

/-- Claim C6, amended: `cleanDescription` strips a leading run of 1-3
uppercase letters followed by whitespace only at the very start of the
string and only when the first character after the whitespace is an
ASCII letter or digit, collapses every internal run of 2 or more
whitespace characters to a single space, and trims; in particular
"PI Widget Max" maps to "Widget Max" and "WW  Bolt   7mm" maps to
"Bolt 7mm". -/
theorem c6_cleanDescription_amended :
    (∀ (u w : List Char) (c₀ : Char) (r : List Char),
       (∀ c ∈ u, c.isUpper = true) → 1 ≤ u.length → u.length ≤ 3 →
       (∀ c ∈ w, jsWS c = true) → 1 ≤ w.length →
       isAlnumAscii c₀ = true →
       cleanDescription ⟨u ++ (w ++ c₀ :: r)⟩ = ⟨collapseWS (jsTrimList (c₀ :: r))⟩) ∧
    cleanDescription "PI Widget Max" = "Widget Max" ∧
    cleanDescription "WW  Bolt   7mm" = "Bolt 7mm" := by
  refine ⟨?_, by decide, by decide⟩
  intro u w c₀ r hu hu1 hu3 hw hw1 hc
  have hwhead : ∀ c, (w ++ c₀ :: r).head? = some c → Char.isUpper c = false := by
    intro c hc2
    cases w with
    | nil => exact absurd hw1 (by simp)
    | cons a t =>
      simp only [List.cons_append, List.head?_cons, Option.some.injEq] at hc2
      subst hc2
      exact jsWS_not_upper a (hw a (by simp))
  have hrhead : ∀ c, (c₀ :: r).head? = some c → jsWS c = false := by
    intro c hc2
    simp only [List.head?_cons, Option.some.injEq] at hc2
    subst hc2
    exact isAlnum_not_jsWS c₀ hc
  have hups : (u ++ (w ++ c₀ :: r)).takeWhile Char.isUpper = u :=
    takeWhile_append_all _ _ _ hu hwhead
  have hafter : (u ++ (w ++ c₀ :: r)).dropWhile Char.isUpper = w ++ c₀ :: r :=
    dropWhile_append_all _ _ _ hu hwhead
  have hws : (w ++ c₀ :: r).takeWhile jsWS = w :=
    takeWhile_append_all _ _ _ hw hrhead
  have hrest : (w ++ c₀ :: r).dropWhile jsWS = c₀ :: r :=
    dropWhile_append_all _ _ _ hw hrhead
  have hdrop : dropSupplierCode (u ++ (w ++ c₀ :: r)) = c₀ :: r := by
    simp [dropSupplierCode, hups, hafter, hws, hrest, hu1, hu3, hw1, hc]
  show (⟨collapseWS (jsTrimList (dropSupplierCode (u ++ (w ++ c₀ :: r))))⟩ : String) = _
  rw [hdrop]

/-- Witness for the amended C6: stripping fires on the concrete
decomposition "PI" + " " + "Widget". -/
theorem c6_witness :
    cleanDescription ⟨['P', 'I'] ++ ([' '] ++ 'W' :: "idget".toList)⟩ =
      ⟨collapseWS (jsTrimList ('W' :: "idget".toList))⟩ :=
  c6_cleanDescription_amended.1 ['P', 'I'] [' '] 'W' "idget".toList
    (by decide) (by decide) (by decide) (by decide) (by decide) (by decide)

/-- Size ceiling of the upload endpoint: `MAX_BYTES = 15 * 1024 * 1024`. -/
def MAX_BYTES : Nat := 15 * 1024 * 1024

/-- The 413 error message the endpoint builds for an oversized file. -/
def tooLargeMessage (size : Nat) : String :=
  "File too large (" ++ toString size ++ " bytes). Limit is " ++
    toString MAX_BYTES ++ " bytes."

/-- A file attached to the multipart form, reduced to its byte size. -/
structure UploadFile where
  size : Nat
deriving DecidableEq, Repr

/-- The request data the POST handler's guard sequence reads: the
`provider` form field (already defaulted to "openai" when absent), the
optional file, and the optional `OPENAI_API_KEY` of the platform
environment. -/
structure UploadRequest where
  provider : String
  file : Option UploadFile
  apiKey : Option String
deriving DecidableEq, Repr

/-- Observable outcome of the guard sequence: an early HTTP response, or
control reaching the outbound provider calls (`openai.files.create`
followed by `openai.responses.create`). -/
inductive UploadOutcome where
  | respond (status : Nat) (body : String)
  | proceedToProvider
deriving DecidableEq, Repr

/-- Embedding of the guard sequence at the top of the POST handler, in
source order: missing file → 400, provider other than "openai" → 400,
missing API key → 500, file size above `MAX_BYTES` → 413; otherwise the
handler proceeds to the provider calls. -/
def handleUpload (req : UploadRequest) : UploadOutcome :=
  match req.file with
  | none => .respond 400 "No file"
  | some f =>
    if req.provider ≠ "openai" then
      .respond 400 "Gemini path not enabled in this starter. Use OpenAI for now."
    else
      match req.apiKey with
      | none => .respond 500 "Missing OPENAI_API_KEY"
      | some _ =>
        if MAX_BYTES < f.size then .respond 413 (tooLargeMessage f.size)
        else .proceedToProvider

/-- Substring containment, used to state that the 413 message carries
the actual size and the configured limit. -/
def containsSub (s t : String) : Prop :=
  ∃ pre post, s = pre ++ t ++ post

/-- Claim C7: an uploaded file whose byte size exceeds `MAX_BYTES` never
lets the handler reach the provider calls, and — when the request passes
the preceding guards (provider "openai", key configured) — it draws a
413 response whose message contains both the actual size and the
configured limit. -/
theorem c7_oversized_rejected (provider : String) (key : Option String) (size : Nat)
    (hsize : MAX_BYTES < size) :
    handleUpload ⟨provider, some ⟨size⟩, key⟩ ≠ UploadOutcome.proceedToProvider ∧
    (provider = "openai" → ∀ k, key = some k →
      handleUpload ⟨provider, some ⟨size⟩, key⟩ =
        UploadOutcome.respond 413 (tooLargeMessage size) ∧
      containsSub (tooLargeMessage size) (toString size) ∧
      containsSub (tooLargeMessage size) (toString MAX_BYTES)) := by
  constructor
  · intro hcontra
    by_cases hp : provider = "openai"
    · cases key with
      | none => simp [handleUpload, hp] at hcontra
      | some k => simp [handleUpload, hp, hsize] at hcontra
    · simp [handleUpload, hp] at hcontra
  · intro hp k hk
    subst hk
    refine ⟨by simp [handleUpload, hp, hsize], ?_, ?_⟩
    · exact ⟨"File too large (",
        " bytes). Limit is " ++ toString MAX_BYTES ++ " bytes.",
        by simp [tooLargeMessage, String.append_assoc]⟩
    · exact ⟨"File too large (" ++ toString size ++ " bytes). Limit is ",
        " bytes.",
        by simp [tooLargeMessage, String.append_assoc]⟩

/-- Witness for C7 at a concrete oversized request (one byte above the
ceiling): no provider call, 413 response. -/
theorem c7_witness :
    handleUpload ⟨"openai", some ⟨15728641⟩, some "sk-test"⟩ ≠
      UploadOutcome.proceedToProvider ∧
    handleUpload ⟨"openai", some ⟨15728641⟩, some "sk-test"⟩ =
      UploadOutcome.respond 413 (tooLargeMessage 15728641) := by
  have h := c7_oversized_rejected "openai" (some "sk-test") 15728641 (by decide)
  exact ⟨h.1, (h.2 rfl "sk-test" rfl).1⟩

/-- Claim C10: the reconciled output is independent of `raw_row`:
rewriting only that field changes neither the pair `chooseFinalPair`
picks, nor the mapped ResultRow, nor the pipeline's output. -/
theorem c10_raw_row_irrelevant (r : CandidateRow) (s : String) :
    chooseFinalPair { r with raw_row := s } = chooseFinalPair r ∧
    mapRow { r with raw_row := s } = mapRow r ∧
    finalRows [{ r with raw_row := s }] = finalRows [r] :=
  ⟨rfl, rfl, rfl⟩

/-- Baseline font size of the legacy labels page fit routine. -/
def BASE_SIZE : ℚ := 56

/-- Upper clamp of the fitted size. -/
def MAX_SIZE : ℚ := 80

/-- Lower clamp of the fitted size. -/
def MIN_SIZE : ℚ := 18

/-- Horizontal padding subtracted from the containing box's width. -/
def SIDE_PADDING_PX : ℚ := 2

/-- Embedding of `fitOne` of the legacy labels page: measure at the
baseline size (the measured width is the `measured` argument), scale to
the available width, clamp to `[MIN_SIZE, MAX_SIZE]`; `none` models the
early returns (no positive available width, or no positive measured
width), which leave the element untouched. -/
def fitOne (measured clientWidth : ℚ) : Option ℚ :=
  let available := clientWidth - SIDE_PADDING_PX
  if available ≤ 0 then none
  else if measured ≤ 0 then none
  else
    let s0 := BASE_SIZE * available / measured
    let s1 := if MAX_SIZE < s0 then MAX_SIZE else s0
    let s2 := if s1 < MIN_SIZE then MIN_SIZE else s1
    some s2

/-- Helper: the two sequential clamping ifs of `fitOne` compute the
clamp of the raw scaled size to `[18, 80]`. -/
theorem fitOne_eq (m w : ℚ) (hw : 0 < w - 2) (hm : 0 < m) :
    fitOne m w = some (max 18 (min 80 (56 * (w - 2) / m))) := by
  simp only [fitOne, BASE_SIZE, MAX_SIZE, MIN_SIZE, SIDE_PADDING_PX]
  rw [if_neg (by linarith), if_neg (by linarith)]
  congr 1
  rcases le_or_lt (56 * (w - 2) / m) 80 with h | h
  · rw [if_neg (not_lt.mpr h), min_eq_right h]
    rcases le_or_lt 18 (56 * (w - 2) / m) with h2 | h2
    · rw [if_neg (not_lt.mpr h2), max_eq_right h2]
    · rw [if_pos h2, max_eq_left (le_of_lt h2)]
  · rw [if_pos h, min_eq_left (le_of_lt h)]
    rw [if_neg (by norm_num), max_eq_right (by norm_num)]

/-- Claim C9: for a fixed payload (fixed measured baseline width), the
fitted symbol size is monotone non-decreasing in the available cell
width, and once it reaches the configured maximum it stays there. -/
theorem c9_fitOne_monotone (m w₁ w₂ s₁ s₂ : ℚ) (hm : 0 < m) (hw : w₁ ≤ w₂)
    (h₁ : fitOne m w₁ = some s₁) (h₂ : fitOne m w₂ = some s₂) :
    s₁ ≤ s₂ ∧ (s₁ = MAX_SIZE → s₂ = MAX_SIZE) := by
  have hw1 : 0 < w₁ - 2 := by
    by_contra hcon
    push_neg at hcon
    simp [fitOne, SIDE_PADDING_PX, hcon] at h₁
  have hw2 : 0 < w₂ - 2 := by linarith
  rw [fitOne_eq m w₁ hw1 hm] at h₁
  rw [fitOne_eq m w₂ hw2 hm] at h₂
  have e₁ := Option.some.inj h₁
  have e₂ := Option.some.inj h₂
  have hr : 56 * (w₁ - 2) / m ≤ 56 * (w₂ - 2) / m :=
    (div_le_div_iff_of_pos_right hm).mpr (by linarith)
  have hAB : max (18:ℚ) (min 80 (56 * (w₁ - 2) / m)) ≤
      max (18:ℚ) (min 80 (56 * (w₂ - 2) / m)) :=
    max_le_max le_rfl (min_le_min le_rfl hr)
  have hub : max (18:ℚ) (min 80 (56 * (w₂ - 2) / m)) ≤ 80 :=
    max_le (by norm_num) (min_le_left _ _)
  refine ⟨?_, fun h80 => ?_⟩
  · rw [← e₁, ← e₂]
    exact hAB
  · rw [← e₂]
    rw [← e₁] at h80
    have h80q : max (18:ℚ) (min 80 (56 * (w₁ - 2) / m)) = 80 := h80
    have hge : (80:ℚ) ≤ max (18:ℚ) (min 80 (56 * (w₂ - 2) / m)) := by
      calc (80:ℚ) = max (18:ℚ) (min 80 (56 * (w₁ - 2) / m)) := h80q.symm
        _ ≤ _ := hAB
    exact le_antisymm hub hge

/-- Witness for C9 at concrete widths: widening the cell from 30 to 58
raises the size from 28 to 56, and from 100 to 200 it stays at the
maximum 80. -/
theorem c9_witness :
    (((28:ℚ) ≤ 56) ∧ ((28:ℚ) = MAX_SIZE → (56:ℚ) = MAX_SIZE)) ∧
    (((80:ℚ) ≤ 80) ∧ ((80:ℚ) = MAX_SIZE → (80:ℚ) = MAX_SIZE)) :=
  ⟨c9_fitOne_monotone 56 30 58 28 56 (by norm_num) (by norm_num)
      (by rw [fitOne_eq 56 30 (by norm_num) (by norm_num)]; norm_num)
      (by rw [fitOne_eq 56 58 (by norm_num) (by norm_num)]; norm_num),
   c9_fitOne_monotone 56 100 200 80 80 (by norm_num) (by norm_num)
      (by rw [fitOne_eq 56 100 (by norm_num) (by norm_num)]; norm_num)
      (by rw [fitOne_eq 56 200 (by norm_num) (by norm_num)]; norm_num)⟩

/-- The Code 39 input alphabet of the SVG labels page (`ALLOWED`). -/
def allowedC39 : List Char :=
  "0123456789ABCDEFGHIJKLMNOPQRSTUVWXYZ-. $/+%".toList

/-- The Code 39 pattern table `C39` of the SVG labels page: 9 elements
per symbol, `n` narrow (1 module unit), `w` wide (3 module units),
starting with a bar. -/
def c39Pattern : Char → Option String
  | '0' => some "nnnwwnwnn"
  | '1' => some "wnnwnnnnw"
  | '2' => some "nnwwnnnnw"
  | '3' => some "wnwwnnnnn"
  | '4' => some "nnnwwnnnw"
  | '5' => some "wnnwwnnnn"
  | '6' => some "nnwwwnnnn"
  | '7' => some "nnnwnnwnw"
  | '8' => some "wnnwnnwnn"
  | '9' => some "nnwwnnwnn"
  | 'A' => some "wnnnnwnnw"
  | 'B' => some "nnwnnwnnw"
  | 'C' => some "wnwnnwnnn"
  | 'D' => some "nnnnwwnnw"
  | 'E' => some "wnnnwwnnn"
  | 'F' => some "nnwnwwnnn"
  | 'G' => some "nnnnnwwnw"
  | 'H' => some "wnnnnwwnn"
  | 'I' => some "nnwnnwwnn"
  | 'J' => some "nnnnwwwnn"
  | 'K' => some "wnnnnnnww"
  | 'L' => some "nnwnnnnww"
  | 'M' => some "wnwnnnnwn"
  | 'N' => some "nnnnwnnww"
  | 'O' => some "wnnnwnnwn"
  | 'P' => some "nnwnwnnwn"
  | 'Q' => some "nnnnnnwww"
  | 'R' => some "wnnnnnwwn"
  | 'S' => some "nnwnnnwwn"
  | 'T' => some "nnnnwnwwn"
  | 'U' => some "wwnnnnnnw"
  | 'V' => some "nwwnnnnnw"
  | 'W' => some "wwwnnnnnn"
  | 'X' => some "nwnnwnnnw"
  | 'Y' => some "wwnnwnnnn"
  | 'Z' => some "nwwnwnnnn"
  | '-' => some "nwnnnnwnw"
  | '.' => some "wwnnnnwnn"
  | ' ' => some "nwwnnnwnn"
  | '$' => some "nwnwnwnnn"
  | '/' => some "nwnwnnnwn"
  | '+' => some "nwnnnwnwn"
  | '%' => some "nnnwnwnwn"
  | '*' => some "nwnnwnwnn"
  | _ => none

/-- `sanitizeData`: uppercase, trim, keep only allowed characters. -/
def sanitizeData (s : String) : String :=
  ⟨(jsTrimList (s.toList.map Char.toUpper)).filter (fun c => allowedC39.contains c)⟩

/-- `withGuards`: wrap the payload in the start/stop character. -/
def withGuards (s : String) : String :=
  "*" ++ s ++ "*"

/-- One bar or space run of the rendered symbol, in module units. -/
structure Run where
  isBar : Bool
  units : Nat
deriving DecidableEq, Repr

/-- The `push` closure of `buildRuns`: ignore empty runs, merge with the
most recent run when it has the same kind, else start a new run.  The
run list is kept in reverse order (most recent first); `buildRuns`
reverses it at the end. -/
def pushRun (runs : List Run) (isBar : Bool) (units : Nat) : List Run :=
  if units = 0 then runs
  else
    match runs with
    | last :: rest =>
      if last.isBar = isBar then { isBar := isBar, units := last.units + units } :: rest
      else { isBar := isBar, units := units } :: last :: rest
    | [] => [{ isBar := isBar, units := units }]

/-- Emit one symbol pattern: alternate bar/space starting with a bar,
`w` counting 3 units and `n` counting 1. -/
def emitPattern : List Run → List Char → Bool → List Run
  | runs, [], _ => runs
  | runs, t :: rest, isBar =>
    emitPattern (pushRun runs isBar (if t == 'w' then 3 else 1)) rest (!isBar)

/-- Emit all data characters: skip characters without a pattern, and
push a 1-unit inter-character gap after every character except the
last. -/
def emitChars : List Run → List Char → List Run
  | runs, [] => runs
  | runs, [c] =>
    match c39Pattern c with
    | none => runs
    | some pat => emitPattern runs pat.toList true
  | runs, c :: c2 :: rest =>
    match c39Pattern c with
    | none => emitChars runs (c2 :: rest)
    | some pat =>
      emitChars (pushRun (emitPattern runs pat.toList true) false 1) (c2 :: rest)

/-- Embedding of `buildRuns`: quiet zone of 10 narrow units on each
side around the emitted characters. -/
def buildRuns (data : String) : List Run :=
  (pushRun (emitChars (pushRun [] false 10) data.toList) false 10).reverse

/-- The `runs.reduce((a, r) => a + r.units, 0)` sum. -/
def sumUnits (runs : List Run) : Nat :=
  runs.foldl (fun a r => a + r.units) 0

/-- The `Math.max(120, (container.clientWidth || 240) - pad * 2)` width
computation of `renderIntoHost`, with `pad = 8`. -/
def renderWidth (clientWidth : Nat) : Nat :=
  max 120 ((if clientWidth = 0 then 240 else clientWidth) - 16)

/-- Total module units of the symbol rendered for an article. -/
def totalUnitsOf (article : String) : Nat :=
  sumUnits (buildRuns (withGuards (sanitizeData article)))

/-- The `Math.max(0.7, Math.floor(width / totalUnits))` module width of
`renderIntoHost`. -/
def modulePxOf (clientWidth : Nat) (article : String) : ℚ :=
  max (7/10 : ℚ) ((renderWidth clientWidth / totalUnitsOf article : ℕ) : ℚ)

/-- JavaScript `Math.round` (round half up). -/
def jsRound (q : ℚ) : ℤ :=
  ⌊q + 1/2⌋

/-- The `Math.max(1, Math.round(modulePx * totalUnits))` total symbol
width of `renderIntoHost`. -/
def barcodeWOf (clientWidth : Nat) (article : String) : ℤ :=
  max 1 (jsRound (modulePxOf clientWidth article * (totalUnitsOf article : ℚ)))

/-- The module width exactly as claim C8 words it: floor of
width over total units, with a minimum of 1.  Stated only to compare
with `modulePxOf`. -/
def claimedModulePx (clientWidth : Nat) (article : String) : ℚ :=
  max (1 : ℚ) ((renderWidth clientWidth / totalUnitsOf article : ℕ) : ℚ)

/-- Helper: `foldl` over run units starting from an accumulator. -/
theorem foldl_add_units (runs : List Run) (a : Nat) :
    runs.foldl (fun x r => x + r.units) a =
      a + runs.foldl (fun x r => x + r.units) 0 := by
  induction runs generalizing a with
  | nil => simp
  | cons r t ih =>
    rw [List.foldl_cons, List.foldl_cons, ih (a + r.units), ih (0 + r.units)]
    omega

/-- Helper: the unit sum of a cons. -/
theorem sumUnits_cons (r : Run) (t : List Run) :
    sumUnits (r :: t) = r.units + sumUnits t := by
  simp only [sumUnits, List.foldl_cons]
  rw [foldl_add_units t (0 + r.units)]
  omega

/-- Helper: `pushRun` adds exactly its units to the sum. -/
theorem sumUnits_pushRun (runs : List Run) (b : Bool) (u : Nat) :
    sumUnits (pushRun runs b u) = u + sumUnits runs := by
  by_cases hu : u = 0
  · simp [pushRun, hu]
  · cases runs with
    | nil =>
      have h : pushRun [] b u = [{ isBar := b, units := u }] := by
        simp [pushRun, hu]
      rw [h, sumUnits_cons]
    | cons last rest =>
      by_cases hb : last.isBar = b
      · have h : pushRun (last :: rest) b u =
            { isBar := b, units := last.units + u } :: rest := by
          simp [pushRun, hu, hb]
        rw [h, sumUnits_cons, sumUnits_cons]
        show last.units + u + sumUnits rest = u + (last.units + sumUnits rest)
        omega
      · have h : pushRun (last :: rest) b u =
            { isBar := b, units := u } :: last :: rest := by
          simp [pushRun, hu, hb]
        rw [h, sumUnits_cons, sumUnits_cons]

/-- Helper: emitting a pattern never decreases the unit sum. -/
theorem sumUnits_emitPattern (pat : List Char) (runs : List Run) (b : Bool) :
    sumUnits runs ≤ sumUnits (emitPattern runs pat b) := by
  induction pat generalizing runs b with
  | nil => exact le_rfl
  | cons t rest ih =>
    simp only [emitPattern]
    refine le_trans ?_ (ih _ _)
    rw [sumUnits_pushRun]
    omega

/-- Helper: emitting the data characters never decreases the unit sum. -/
theorem sumUnits_emitChars (l : List Char) (runs : List Run) :
    sumUnits runs ≤ sumUnits (emitChars runs l) := by
  induction l generalizing runs with
  | nil => exact le_rfl
  | cons c t ih =>
    cases t with
    | nil =>
      cases hp : c39Pattern c with
      | none => simp [emitChars, hp]
      | some pat => simpa [emitChars, hp] using sumUnits_emitPattern pat.toList runs true
    | cons c2 rest =>
      cases hp : c39Pattern c with
      | none => simpa [emitChars, hp] using ih runs
      | some pat =>
        simp only [emitChars, hp]
        refine le_trans (sumUnits_emitPattern pat.toList runs true) ?_
        refine le_trans ?_ (ih _)
        rw [sumUnits_pushRun]
        omega

/-- Helper: the unit sum as a mapped list sum. -/
theorem sumUnits_eq_sum (runs : List Run) :
    sumUnits runs = (runs.map (fun r => r.units)).sum := by
  induction runs with
  | nil => rfl
  | cons r t ih => rw [sumUnits_cons, ih, List.map_cons, List.sum_cons]

/-- Helper: reversing the run list keeps the unit sum. -/
theorem sumUnits_reverse (runs : List Run) :
    sumUnits runs.reverse = sumUnits runs := by
  rw [sumUnits_eq_sum, sumUnits_eq_sum, List.map_reverse, List.sum_reverse]

/-- Helper: every rendered symbol has positive total module units (the
quiet zones alone contribute 20). -/
theorem totalUnitsOf_pos (article : String) : 0 < totalUnitsOf article := by
  unfold totalUnitsOf buildRuns
  rw [sumUnits_reverse, sumUnits_pushRun]
  omega

set_option maxRecDepth 40000 in
/-- Claim C8 as stated is refuted: for a 12-digit article in a 100 px
container (available width 120, total 243 module units) the renderer's
module width is 0.7, while the claimed formula (floor with minimum 1)
gives 1. -/
theorem c8_counterexample :
    modulePxOf 100 "000000000000" = 7/10 ∧
    claimedModulePx 100 "000000000000" = 1 ∧ ((7:ℚ)/10) ≠ 1 := by
  have htu : totalUnitsOf "000000000000" = 243 := by decide
  have hw : renderWidth 100 = 120 := by decide
  refine ⟨?_, ?_, by norm_num⟩
  · unfold modulePxOf
    rw [htu, hw]
    rw [show ((120:ℕ) / 243) = 0 from by norm_num]
    norm_num
  · unfold claimedModulePx
    rw [htu, hw]
    rw [show ((120:ℕ) / 243) = 0 from by norm_num]
    norm_num

/-- Helper: rounding an integer-valued rational returns that integer. -/
theorem jsRound_natCast (n : Nat) : jsRound ((n : ℕ) : ℚ) = (n : ℤ) := by
  unfold jsRound
  rw [Int.floor_eq_iff]
  constructor
  · push_cast
    linarith
  · push_cast
    linarith

/-- Claim C8, amended: the per-module width equals
`max 0.7 (floor (available_width / total_module_units))` — the minimum
is 0.7 px, not 1.  When at least one whole pixel per module fits, the
module width is exactly the floored quotient (hence at least 1) and the
emitted symbol width never exceeds the available width. -/
theorem c8_modulePx_amended (cw : Nat) (article : String) :
    (totalUnitsOf article ≤ renderWidth cw →
      modulePxOf cw article = ((renderWidth cw / totalUnitsOf article : ℕ) : ℚ) ∧
      1 ≤ modulePxOf cw article ∧
      (barcodeWOf cw article : ℚ) ≤ (renderWidth cw : ℚ)) ∧
    (renderWidth cw < totalUnitsOf article → modulePxOf cw article = 7/10) := by
  constructor
  · intro hle
    have htu : 0 < totalUnitsOf article := totalUnitsOf_pos article
    have hk1 : 1 ≤ renderWidth cw / totalUnitsOf article :=
      (Nat.one_le_div_iff htu).mpr hle
    have hcast : (1:ℚ) ≤ ((renderWidth cw / totalUnitsOf article : ℕ) : ℚ) := by
      exact_mod_cast hk1
    have hmax : modulePxOf cw article =
        ((renderWidth cw / totalUnitsOf article : ℕ) : ℚ) := by
      unfold modulePxOf
      exact max_eq_right (by linarith)
    refine ⟨hmax, by rw [hmax]; exact hcast, ?_⟩
    unfold barcodeWOf
    rw [hmax]
    have hmul : ((renderWidth cw / totalUnitsOf article : ℕ) : ℚ) *
        (totalUnitsOf article : ℚ) =
        (((renderWidth cw / totalUnitsOf article) * totalUnitsOf article : ℕ) : ℚ) := by
      push_cast
      ring
    rw [hmul]
    rw [jsRound_natCast]
    have hn1 : 1 ≤ (renderWidth cw / totalUnitsOf article) * totalUnitsOf article :=
      Nat.one_le_iff_ne_zero.mpr (Nat.mul_ne_zero (by omega) (by omega))
    have hmaxeq : max (1:ℤ)
        (((renderWidth cw / totalUnitsOf article) * totalUnitsOf article : ℕ) : ℤ) =
        (((renderWidth cw / totalUnitsOf article) * totalUnitsOf article : ℕ) : ℤ) :=
      max_eq_right (by exact_mod_cast hn1)
    rw [hmaxeq]
    have hnw : (renderWidth cw / totalUnitsOf article) * totalUnitsOf article ≤
        renderWidth cw := Nat.div_mul_le_self _ _
    exact_mod_cast hnw
  · intro hlt
    have hdiv : renderWidth cw / totalUnitsOf article = 0 := Nat.div_eq_of_lt hlt
    unfold modulePxOf
    rw [hdiv]
    norm_num

set_option maxRecDepth 40000 in
/-- Witness for the amended C8: a one-letter article in a 300 px
container gets the floored module width (and fits), and the 12-digit
article in a 100 px container gets the 0.7 minimum. -/
theorem c8_witness :
    (modulePxOf 300 "A" = ((renderWidth 300 / totalUnitsOf "A" : ℕ) : ℚ) ∧
     1 ≤ modulePxOf 300 "A" ∧
     (barcodeWOf 300 "A" : ℚ) ≤ (renderWidth 300 : ℚ)) ∧
    modulePxOf 100 "000000000000" = 7/10 :=
  ⟨(c8_modulePx_amended 300 "A").1 (by decide),
   (c8_modulePx_amended 100 "000000000000").2 (by decide)⟩

end MPLC
